import Mathlib

/-!
Shallow embedding of the Amazons game server (`src/index.js`).

The socket handlers of `index.js` are embedded as pure functions from a
server state (the global mutable maps `clients`, `match_invites`, `matches`)
and the message payload to a new server state together with the list of
socket emissions performed, in order.  A handler that can throw a JavaScript
`TypeError` (reading a property of `undefined`) returns `Option`, with
`none` standing for the uncaught exception.

`genID` produces a fresh random string on each call; randomness is embedded
as an explicit counter (`nid`) threaded through the handlers: each call
returns the current counter value and bumps it, so generated identifiers are
pairwise distinct and distinct from every identifier issued earlier.

The match engine (`public/js/amazons.js`), the board (`public/js/board.js`)
and the move rules (`public/js/game_logic.js`) are required from `index.js`
but are not part of the sources here; they are modelled from the spec where
a definition is marked `Modelled from the spec:`.
-/

/-- JavaScript array indexing `l[i]`: `undefined` (here `none`) when the
index is negative or at least the length. -/
def jsIndex {α : Type} (l : List α) (i : Int) : Option α :=
  if 0 ≤ i then l.get? i.toNat else none

/-- Modelled from the spec: tile state of the board grid
(`public/js/board.js`, not under src/): Empty, Occupied(seat) or Burned. -/
inductive TileState where
  | empty
  | occupied (seat : Nat)
  | burned
deriving DecidableEq, Repr

/-- The `owner` property read by `index.js` line 306: the owning seat of an
occupied tile, `undefined` (`none`) otherwise. -/
def TileState.owner : TileState → Option Nat
  | .occupied s => some s
  | _ => none

/-- One entry of the parsed `settings.piece_config` (`index.js` line 254):
a placement `(x, y, owner)`. -/
structure Piece where
  x : Int
  y : Int
  owner : Nat
deriving DecidableEq, Repr

/-- An `{x, y}` coordinate pair as sent by clients (`data.from`, `data.to`,
`data.tile`). -/
structure Coord where
  x : Int
  y : Int
deriving DecidableEq, Repr

/-- Modelled from the spec: the Board (`public/js/board.js`, not under
src/): a square grid of size S×S; `grid` is the raw 2-dimensional array
`board.board` read by `index.js` line 302, indexed `grid[x][y]`. -/
structure Board where
  size : Nat
  grid : List (List TileState)
deriving DecidableEq, Repr

/-- Modelled from the spec: the Board constructor
`new Board(parseInt(settings.board_size), pieces)` (`index.js` line 270,
class in `public/js/board.js`, not under src/): an S×S grid, every tile
Empty except the supplied initial placements, which are Occupied by their
owner seat. -/
def Board.make (S : Nat) (pieces : List Piece) : Board :=
  { size := S
    grid := (List.range S).map fun x =>
      (List.range S).map fun y =>
        match pieces.find? (fun p => p.x == (x : Int) && p.y == (y : Int)) with
        | some p => TileState.occupied p.owner
        | none => TileState.empty }

/-- `grid[x][y]` with JavaScript array semantics: `none` exactly when either
index falls outside `[0, S)` (in JavaScript the subsequent property read
then throws a `TypeError`). -/
def Board.tileAt (b : Board) (c : Coord) : Option TileState :=
  match jsIndex b.grid c.x with
  | some col => jsIndex col c.y
  | none => none

/-- Modelled from the spec: a queen line — horizontal, vertical or exact
diagonal (equal absolute x/y delta) and of nonzero length. -/
def straightLine (src dst : Coord) : Bool :=
  let dx := dst.x - src.x
  let dy := dst.y - src.y
  (dx == 0 && dy != 0) || (dy == 0 && dx != 0) || (dx.natAbs == dy.natAbs && dx != 0)

/-- Modelled from the spec: `linePath(from, to)` — the ordered intermediate
coordinates strictly between `src` and `dst` when they are colinear; empty
list for a non-straight or zero-length request. -/
def linePath (src dst : Coord) : List Coord :=
  if straightLine src dst then
    let sx := (dst.x - src.x).sign
    let sy := (dst.y - src.y).sign
    let n := max (dst.x - src.x).natAbs (dst.y - src.y).natAbs
    (List.range (n - 1)).map fun i => ⟨src.x + sx * ((i : Int) + 1), src.y + sy * ((i : Int) + 1)⟩
  else []

/-- Modelled from the spec: `isLegalMove(board, seat, from, to)` — `from`
holds a piece of `seat`, `to` is in bounds and Empty, the two are joined by
a straight line and every intermediate tile is Empty. -/
def isLegalMove (b : Board) (seat : Nat) (src dst : Coord) : Bool :=
  b.tileAt src == some (TileState.occupied seat) &&
  b.tileAt dst == some TileState.empty &&
  straightLine src dst &&
  (linePath src dst).all (fun c => b.tileAt c == some TileState.empty)

/-- Modelled from the spec: `isLegalBurn(board, seat, piecePosition, tile)`
— `tile` is in bounds, Empty and reachable from the piece's post-move
position along a clear straight line. -/
def isLegalBurn (b : Board) (pos tile : Coord) : Bool :=
  b.tileAt tile == some TileState.empty &&
  straightLine pos tile &&
  (linePath pos tile).all (fun c => b.tileAt c == some TileState.empty)

/-- All coordinates of the S×S grid, used to enumerate candidate moves. -/
def Board.allCoords (b : Board) : List Coord :=
  (List.range b.size).flatMap fun x =>
    (List.range b.size).map fun y => ⟨(x : Int), (y : Int)⟩

/-- Modelled from the spec: `hasAnyLegalMove(board, seat)` — some piece of
`seat` has some legal move (`isLegalMove` already restricts the source tile
to the seat's pieces, so scanning every coordinate pair is the same scan). -/
def hasAnyLegalMove (b : Board) (seat : Nat) : Bool :=
  b.allCoords.any fun src => b.allCoords.any fun dst => isLegalMove b seat src dst

/-- Write one tile of the grid; unchanged when the coordinate is out of
range (callers establish in-range via the validator). -/
def Board.setTile (b : Board) (c : Coord) (t : TileState) : Board :=
  if 0 ≤ c.x && 0 ≤ c.y then
    match jsIndex b.grid c.x with
    | some col => { b with grid := b.grid.set c.x.toNat (col.set c.y.toNat t) }
    | none => b
  else b

/-- Modelled from the spec: `applyMove(from, to)` — relocate the piece at
`src` to `dst`; `src` becomes Empty and `dst` Occupied by the same seat. -/
def Board.applyMove (b : Board) (src dst : Coord) : Board :=
  match b.tileAt src with
  | some (TileState.occupied s) => (b.setTile src TileState.empty).setTile dst (TileState.occupied s)
  | _ => b

/-- Modelled from the spec: `applyBurn(tile)` — mark the tile Burned. -/
def Board.applyBurn (b : Board) (tile : Coord) : Board :=
  b.setTile tile TileState.burned

/-- Modelled from the spec: the two-step sub-phase of a turn. -/
inductive SubPhase where
  | awaitingMove
  | awaitingBurn
deriving DecidableEq, Repr

/-- Modelled from the spec: match lifecycle `Setup → Active → Finished`. -/
inductive MatchStatus where
  | setup
  | active
  | finished (winner : Nat)
deriving DecidableEq, Repr

/-- Modelled from the spec: the match engine state held by the `Amazons`
class (`public/js/amazons.js`, not under src/): identifier, seat → external
identity registry (`players`, populated by `setPlayer(id, i)` so that seat
`i` maps to `players[i]`), Board, turn timer budget, current turn seat
(`turn`, read by `index.js` lines 307 and 324), sub-phase, status and the
moved piece's new position (used by burn legality). -/
structure Amazons where
  id : Nat
  players : List Nat
  board : Board
  turnTimer : Nat
  turn : Nat
  phase : SubPhase
  status : MatchStatus
  lastMoved : Coord
deriving DecidableEq, Repr

/-- Position of an identity in the seat list (seat index), `none` if absent. -/
def seatOf : List Nat → Nat → Option Nat
  | [], _ => none
  | p :: ps, i => if p = i then some 0 else (seatOf ps i).map (· + 1)

/-- Modelled from the spec: `getInternalSeat(externalId)` / the source's
`getInternalId(client.id)` (`index.js` lines 303 and 321): PlayerRegistry
lookup, absent (`UnknownParticipant`) for a non-participant. -/
def Amazons.getInternalId (m : Amazons) (extId : Nat) : Option Nat :=
  seatOf m.players extId

/-- Modelled from the spec: `attemptMove(from, to)` (`public/js/amazons.js`,
not under src/): valid only in Active state and sub-phase AwaitingMove with
a legal move for the current turn seat; on success applies the move and
transitions to AwaitingBurn, on failure performs no mutation. -/
def Amazons.attemptMove (m : Amazons) (src dst : Coord) : Option Amazons :=
  if m.status = MatchStatus.active ∧ m.phase = SubPhase.awaitingMove ∧
      isLegalMove m.board m.turn src dst then
    some { m with
      board := m.board.applyMove src dst
      phase := SubPhase.awaitingBurn
      lastMoved := dst }
  else none

/-- Modelled from the spec: `attemptBurn(tile)` (`public/js/amazons.js`, not
under src/): valid only in Active state and sub-phase AwaitingBurn with a
legal burn from the moved piece's position; on success applies the burn,
advances the turn seat (wrapping), returns to AwaitingMove and finishes the
match with the previous seat as winner when the new seat has no legal move. -/
def Amazons.attemptBurn (m : Amazons) (tile : Coord) : Option Amazons :=
  if m.status = MatchStatus.active ∧ m.phase = SubPhase.awaitingBurn ∧
      isLegalBurn m.board m.lastMoved tile then
    let b' := m.board.applyBurn tile
    let nextSeat := (m.turn + 1) % m.players.length
    if hasAnyLegalMove b' nextSeat then
      some { m with board := b', turn := nextSeat, phase := SubPhase.awaitingMove }
    else
      some { m with board := b', turn := nextSeat, phase := SubPhase.awaitingMove,
                    status := MatchStatus.finished m.turn }
  else none

/-- Modelled from the spec: `begin` transitions Setup → Active (`index.js`
line 290 calls it after the configuration check has already passed). -/
def Amazons.begin (m : Amazons) : Amazons :=
  { m with status := MatchStatus.active }

/-- The spec's `BoardSnapshot` event payload. -/
structure Snapshot where
  matchId : Nat
  tiles : List (List TileState)
  turnSeat : Nat
  phase : SubPhase
  status : MatchStatus
deriving DecidableEq, Repr

/-- Full-state snapshot of a match for broadcast. -/
def Amazons.snapshot (m : Amazons) : Snapshot :=
  ⟨m.id, m.board.grid, m.turn, m.phase, m.status⟩

/-- Messages emitted over sockets by the handlers of `index.js`. -/
inductive Msg where
  | idMsg (i : Nat)
  | usernameSet (u : String)
  | errorMessage (s : String)
  | usersList (l : List (Nat × String))
  | matchInviteMsg (fromName : String) (inviteId : Nat)
  | setInviteId (player : Nat) (inviteId : Nat)
  | inviteResponse (playerId : Nat) (inviteId : Nat) (response : String)
  | moveSuccess (dst : Coord)
  | burnSuccess
  | boardSnapshot (s : Snapshot)
deriving DecidableEq, Repr

/-- One socket emission: to a single client (`socket.emit` /
`clients[x].socket.emit`) or to everyone (`io.emit`, and the engine's board
broadcast). -/
inductive Emit where
  | toClient (target : Nat) (msg : Msg)
  | broadcast (msg : Msg)
deriving DecidableEq, Repr

/-- Modelled from the spec: `emitBoard(clients)` (`public/js/amazons.js`,
not under src/) broadcasts the match's `BoardSnapshot`. -/
def Amazons.emitBoard (m : Amazons) : List Emit :=
  [Emit.broadcast (Msg.boardSnapshot m.snapshot)]

/-- A connected client's record (`public/js/client.js`, not under src/;
Modelled from the spec: the session layer keeps per-connection identity and
the chosen username). -/
structure Client where
  id : Nat
  username : Option String
deriving DecidableEq, Repr

/-- A pending match invite (`index.js` lines 185-187): sender and invitee. -/
structure Invite where
  fromId : Nat
  toId : Nat
deriving DecidableEq, Repr

/-- The game server's global mutable maps (`index.js` lines 78-80):
`clients`, `match_invites` and `matches` (the last named `matchesMap` here,
`matches` being reserved syntax in Lean), each keyed by identifier. -/
structure ServerState where
  clients : List (Nat × Client)
  matchInvites : List (Nat × Invite)
  matchesMap : List (Nat × Amazons)
deriving DecidableEq, Repr

/-- JavaScript object property read `obj[k]`: the value at the key, or
`undefined` (`none`). -/
def lookupId {α : Type} : List (Nat × α) → Nat → Option α
  | [], _ => none
  | (k, v) :: rest, i => if k = i then some v else lookupId rest i

/-- JavaScript `delete obj[k]`. -/
def eraseKey {α : Type} (l : List (Nat × α)) (k : Nat) : List (Nat × α) :=
  l.filter fun p => p.1 != k

/-- JavaScript in-place update `obj[k] = v` of an existing key. -/
def setAssoc {α : Type} (l : List (Nat × α)) (k : Nat) (v : α) : List (Nat × α) :=
  l.map fun p => if p.1 = k then (k, v) else p

/-- The error message of `index.js` lines 154-156. -/
def usernameError : String := "Username must be 3 to 20 characters long (inclusive)"

/-- The `users_info` list built at `index.js` lines 141-150 and 340-349:
clients that have a username, projected to `{id, username}` in map order. -/
def usersInfo (clients : List (Nat × Client)) : List (Nat × String) :=
  clients.filterMap fun p =>
    match p.2.username with
    | some u => some (p.2.id, u)
    | none => none

/-- The `set_username` handler (`index.js` lines 99-163).  A 3-to-20
character username is stored on the client record, answered with
`username_set` and followed by a `users_list` broadcast built from the
updated map; anything else is answered with `error_message` only.  The
asynchronous `pg_pool.query` callback (persistence: `logged_in`, possible
identifier change) belongs to the external database collaborator and is not
part of this synchronous embedding. -/
def set_username (st : ServerState) (clientId : Nat) (username : String) :
    ServerState × List Emit :=
  if 3 ≤ username.length ∧ username.length ≤ 20 then
    let clients' := st.clients.map fun p =>
      if p.1 = clientId then (p.1, { p.2 with username := some username }) else p
    ({ st with clients := clients' },
     [Emit.toClient clientId (Msg.usernameSet username),
      Emit.broadcast (Msg.usersList (usersInfo clients'))])
  else
    (st, [Emit.toClient clientId (Msg.errorMessage usernameError)])

/-- The `match_accept` handler (`index.js` lines 195-214).  Looking up an
unknown invite throws (`match_invites[id].from` on `undefined`), hence
`none`.  When the sender has disconnected the handler returns early without
deleting the invite; otherwise it emits exactly one `invite_response` to the
sender and deletes the invite. -/
def match_accept (st : ServerState) (inviteId : Nat) :
    Option (ServerState × List Emit) :=
  match lookupId st.matchInvites inviteId with
  | none => none
  | some inv =>
    match lookupId st.clients inv.fromId with
    | none => some (st, [])
    | some _ =>
      some ({ st with matchInvites := eraseKey st.matchInvites inviteId },
            [Emit.toClient inv.fromId (Msg.inviteResponse inv.toId inviteId "accepted")])

/-- The `match_decline` handler (`index.js` lines 216-235), identical to
`match_accept` except for the response string. -/
def match_decline (st : ServerState) (inviteId : Nat) :
    Option (ServerState × List Emit) :=
  match lookupId st.matchInvites inviteId with
  | none => none
  | some inv =>
    match lookupId st.clients inv.fromId with
    | none => some (st, [])
    | some _ =>
      some ({ st with matchInvites := eraseKey st.matchInvites inviteId },
            [Emit.toClient inv.fromId (Msg.inviteResponse inv.toId inviteId "declined")])

/-- One entry of `settings.players` in a `match_start` request. -/
structure PlayerSetting where
  id : Nat
  type : String
  accepted : String
deriving DecidableEq, Repr

/-- The `match_start` payload (`index.js` line 237); `piece_config` arrives
already parsed (`JSON.parse`, line 254) and the numeric fields already
through `parseInt` (lines 270 and 276). -/
structure Settings where
  players : List PlayerSetting
  piece_config : List Piece
  board_size : Nat
  turn_timer : Nat
deriving DecidableEq, Repr

/-- The player loop of `index.js` lines 242-252: keep the accepted players
in order, replacing each accepted bot's identifier with a freshly generated
one (`genID`, embedded as the counter `nid`); returns `players_real` and the
advanced counter. -/
def processPlayers : List PlayerSetting → Nat → List PlayerSetting × Nat
  | [], nid => ([], nid)
  | p :: ps, nid =>
    if p.accepted = "accepted" then
      if p.type = "bot" then
        let r := processPlayers ps (nid + 1)
        ({ p with id := nid } :: r.1, r.2)
      else
        let r := processPlayers ps nid
        (p :: r.1, r.2)
    else
      processPlayers ps nid

/-- The `correct_players` loop of `index.js` lines 255-261: largest owner
index in the piece configuration (starting from 0). -/
def maxOwner (pieces : List Piece) : Nat :=
  pieces.foldl (fun acc p => if p.owner > acc then p.owner else acc) 0

/-- Number of players whose accepted flag equals `accepted` (`n_players`). -/
def acceptedCount (ps : List PlayerSetting) : Nat :=
  (ps.filter fun p => p.accepted == "accepted").length

/-- The `match_start` handler (`index.js` lines 237-292).  When `n_players`
differs from `correct_players + 1` it returns with no mutation and no
emission; otherwise it creates the Board and the match, registers the seats
(`setPlayer(players_real[i].id, i)` — called twice per seat in the source,
idempotently — so seat `i` holds `players_real[i].id`), stores the match in
the registry, begins it and broadcasts the board.  The result carries the
advanced `genID` counter. -/
def match_start (st : ServerState) (nid : Nat) (s : Settings) :
    ServerState × Nat × List Emit :=
  let pr := processPlayers s.players nid
  let players_real := pr.1
  let nid1 := pr.2
  let n_players := players_real.length
  let correct_players := maxOwner s.piece_config
  if n_players ≠ correct_players + 1 then
    (st, nid1, [])
  else
    let match_id := nid1
    let board := Board.make s.board_size s.piece_config
    let game : Amazons :=
      { id := match_id
        players := players_real.map (fun p => p.id)
        board := board
        turnTimer := s.turn_timer
        turn := 0
        phase := SubPhase.awaitingMove
        status := MatchStatus.setup
        lastMoved := ⟨0, 0⟩ }
    let game' := game.begin
    ({ st with matchesMap := (match_id, game') :: st.matchesMap },
     nid1 + 1, game'.emitBoard)

/-- The `attempt_move` payload: `{match_id, from, to}` (`from`/`to` named
`src`/`dst` here, `from` being reserved in Lean). -/
structure MoveData where
  match_id : Nat
  src : Coord
  dst : Coord
deriving DecidableEq, Repr

/-- The `attempt_move` handler (`index.js` lines 296-313).  Unknown match:
silent early return.  Then `board[data.from.x][data.from.y].owner` is read
unconditionally — with either coordinate outside `[0, S)` the index yields
`undefined` and the property read throws a `TypeError` (`none`).  The move
is forwarded to the engine only when the tile's owner and the match's
current turn both equal the requester's internal seat (JavaScript `==`:
`undefined == undefined` is true, `undefined == n` is false); an accepted
move is answered with `move_success` carrying `data.to` and followed by the
board broadcast, any rejection is a silent no-op. -/
def attempt_move (st : ServerState) (clientId : Nat) (d : MoveData) :
    Option (ServerState × List Emit) :=
  match lookupId st.matchesMap d.match_id with
  | none => some (st, [])
  | some m =>
    let miid := m.getInternalId clientId
    match m.board.tileAt d.src with
    | none => none
    | some tile =>
      if tile.owner == miid && some m.turn == miid then
        match m.attemptMove d.src d.dst with
        | some m' =>
          some ({ st with matchesMap := setAssoc st.matchesMap d.match_id m' },
                [Emit.toClient clientId (Msg.moveSuccess d.dst),
                 Emit.broadcast (Msg.boardSnapshot m'.snapshot)])
        | none => some (st, [])
      else some (st, [])

/-- The `attempt_burn` payload: `{match_id, tile}`. -/
structure BurnData where
  match_id : Nat
  tile : Coord
deriving DecidableEq, Repr

/-- The `attempt_burn` handler (`index.js` lines 315-330).  Unknown match:
silent early return.  The burn is forwarded to the engine only when the
match's current turn equals the requester's internal seat; an accepted burn
is answered with `burn_success` and followed by the board broadcast, any
rejection is a silent no-op. -/
def attempt_burn (st : ServerState) (clientId : Nat) (d : BurnData) :
    Option (ServerState × List Emit) :=
  match lookupId st.matchesMap d.match_id with
  | none => some (st, [])
  | some m =>
    let miid := m.getInternalId clientId
    if some m.turn == miid then
      match m.attemptBurn d.tile with
      | some m' =>
        some ({ st with matchesMap := setAssoc st.matchesMap d.match_id m' },
              [Emit.toClient clientId Msg.burnSuccess,
               Emit.broadcast (Msg.boardSnapshot m'.snapshot)])
      | none => some (st, [])
    else some (st, [])

/-- Whether an `attempt_move` request is accepted: known match, in-bounds
source tile owned by the requester's seat, requester's seat is the turn
seat, and the engine accepts the move. -/
def moveAccepted (st : ServerState) (clientId : Nat) (d : MoveData) : Bool :=
  match lookupId st.matchesMap d.match_id with
  | none => false
  | some m =>
    match m.board.tileAt d.src with
    | none => false
    | some tile =>
      (tile.owner == m.getInternalId clientId &&
       some m.turn == m.getInternalId clientId) &&
      (m.attemptMove d.src d.dst).isSome

/-- Whether an `attempt_burn` request is accepted: known match, requester's
seat is the turn seat, and the engine accepts the burn. -/
def burnAccepted (st : ServerState) (clientId : Nat) (d : BurnData) : Bool :=
  match lookupId st.matchesMap d.match_id with
  | none => false
  | some m =>
    (some m.turn == m.getInternalId clientId) && (m.attemptBurn d.tile).isSome

/-- The match object a successful `match_start` with counter `nid` stores
in the registry: the `Amazons` value of `index.js` lines 272-279 (seat `i`
registered to `players_real[i].id`), after `begin`. -/
def startedGame (nid : Nat) (s : Settings) : Amazons :=
  Amazons.begin
    { id := (processPlayers s.players nid).2
      players := (processPlayers s.players nid).1.map (fun p => p.id)
      board := Board.make s.board_size s.piece_config
      turnTimer := s.turn_timer
      turn := 0
      phase := SubPhase.awaitingMove
      status := MatchStatus.setup
      lastMoved := ⟨0, 0⟩ }

/-- Concrete 3×3 board fixture: seat 0 at (0,0), seat 1 at (2,2). -/
def bW : Board := Board.make 3 [⟨0, 0, 0⟩, ⟨2, 2, 1⟩]

/-- Concrete active match fixture: client 7 holds seat 0, client 8 seat 1,
seat 0 to move. -/
def mW : Amazons :=
  { id := 9
    players := [7, 8]
    board := bW
    turnTimer := 0
    turn := 0
    phase := SubPhase.awaitingMove
    status := MatchStatus.active
    lastMoved := ⟨0, 0⟩ }

/-- Concrete server state fixture: two clients, one pending invite from 7
to 8, one live match. -/
def stW : ServerState :=
  { clients := [(7, ⟨7, some "alice"⟩), (8, ⟨8, none⟩)]
    matchInvites := [(40, ⟨7, 8⟩)]
    matchesMap := [(9, mW)] }

/-- The fixture state after client 7 (the invite sender) disconnected. -/
def stW2 : ServerState :=
  { clients := [(8, ⟨8, none⟩)]
    matchInvites := [(40, ⟨7, 8⟩)]
    matchesMap := [(9, mW)] }

/-- A well-formed `match_start` payload: two accepted players (one bot),
two pieces whose largest owner index is 1. -/
def sOk : Settings :=
  { players := [⟨7, "human", "accepted"⟩, ⟨0, "bot", "accepted"⟩, ⟨9, "human", "declined"⟩]
    piece_config := [⟨0, 0, 0⟩, ⟨2, 2, 1⟩]
    board_size := 3
    turn_timer := 30 }

/-- A mis-configured `match_start` payload: one accepted player but the
piece configuration declares owners 0 and 1. -/
def sBad : Settings :=
  { players := [⟨7, "human", "accepted"⟩]
    piece_config := [⟨0, 0, 0⟩, ⟨2, 2, 1⟩]
    board_size := 3
    turn_timer := 30 }

/-- An accepted move request on the fixture: seat 0 moves (0,0) → (2,0). -/
def dA : MoveData := ⟨9, ⟨0, 0⟩, ⟨2, 0⟩⟩

/-- The fixture handler result of the accepted move `dA` by client 7. -/
def rA : ServerState × List Emit := (attempt_move stW 7 dA).getD (stW, [])

/-- The fixture state after the accepted move (match in AwaitingBurn). -/
def stA : ServerState := rA.1

/-- An accepted burn request on `stA`: seat 0 burns the vacated (0,0). -/
def dB : BurnData := ⟨9, ⟨0, 0⟩⟩

/-- The fixture handler result of the accepted burn `dB` by client 7. -/
def rB : ServerState × List Emit := (attempt_burn stA 7 dB).getD (stA, [])

theorem processPlayers_length (ps : List PlayerSetting) (nid : Nat) :
    (processPlayers ps nid).1.length = acceptedCount ps := by
  induction ps generalizing nid with
  | nil => rfl
  | cons p ps ih =>
    by_cases h : p.accepted = "accepted"
    · have hc : (p.accepted == "accepted") = true := by simp [h]
      have ih' : ∀ n, (processPlayers ps n).1.length =
          (ps.filter fun q => q.accepted == "accepted").length := by
        intro n; simpa [acceptedCount] using ih n
      by_cases hb : p.type = "bot" <;>
        simp [processPlayers, acceptedCount, h, hb, List.filter_cons, hc, ih']
    · have hc : (p.accepted == "accepted") = false := by simp [h]
      have ih' : (processPlayers ps nid).1.length =
          (ps.filter fun q => q.accepted == "accepted").length := by
        simpa [acceptedCount] using ih nid
      simp [processPlayers, acceptedCount, h, List.filter_cons, hc, ih']

theorem lookupId_eraseKey_self {α : Type} (l : List (Nat × α)) (k : Nat) :
    lookupId (eraseKey l k) k = none := by
  induction l with
  | nil => rfl
  | cons p rest ih =>
    by_cases h : p.1 = k
    · have hc : (p.1 != k) = false := by simp [h]
      simpa [eraseKey, List.filter_cons, hc] using ih
    · have hc : (p.1 != k) = true := by simp [h]
      simpa [eraseKey, List.filter_cons, hc, lookupId, h] using ih

theorem attempt_move_spec (st : ServerState) (c : Nat) (d : MoveData) :
    (moveAccepted st c d = false ∧
      (attempt_move st c d = none ∨ attempt_move st c d = some (st, []))) ∨
    (∃ m m', lookupId st.matchesMap d.match_id = some m ∧
      m.attemptMove d.src d.dst = some m' ∧ moveAccepted st c d = true ∧
      attempt_move st c d =
        some ({ st with matchesMap := setAssoc st.matchesMap d.match_id m' },
              [Emit.toClient c (Msg.moveSuccess d.dst),
               Emit.broadcast (Msg.boardSnapshot m'.snapshot)])) := by
  cases hm : lookupId st.matchesMap d.match_id with
  | none => exact Or.inl ⟨by simp [moveAccepted, hm], Or.inr (by simp [attempt_move, hm])⟩
  | some m =>
    cases ht : m.board.tileAt d.src with
    | none => exact Or.inl ⟨by simp [moveAccepted, hm, ht], Or.inl (by simp [attempt_move, hm, ht])⟩
    | some tile =>
      by_cases hg : (tile.owner == m.getInternalId c && some m.turn == m.getInternalId c) = true
      · cases ha : m.attemptMove d.src d.dst with
        | none =>
          exact Or.inl ⟨by simp [moveAccepted, hm, ht, ha],
            Or.inr (by simp [attempt_move, hm, ht, hg, ha])⟩
        | some m' =>
          exact Or.inr ⟨m, m', rfl, ha, by simp [moveAccepted, hm, ht, hg, ha],
            by simp [attempt_move, hm, ht, hg, ha]⟩
      · rw [Bool.not_eq_true] at hg
        exact Or.inl ⟨by simp [moveAccepted, hm, ht, hg],
          Or.inr (by simp [attempt_move, hm, ht, hg])⟩

theorem attempt_burn_spec (st : ServerState) (c : Nat) (d : BurnData) :
    (burnAccepted st c d = false ∧ attempt_burn st c d = some (st, [])) ∨
    (∃ m m', lookupId st.matchesMap d.match_id = some m ∧
      m.attemptBurn d.tile = some m' ∧ burnAccepted st c d = true ∧
      attempt_burn st c d =
        some ({ st with matchesMap := setAssoc st.matchesMap d.match_id m' },
              [Emit.toClient c Msg.burnSuccess,
               Emit.broadcast (Msg.boardSnapshot m'.snapshot)])) := by
  cases hm : lookupId st.matchesMap d.match_id with
  | none => exact Or.inl ⟨by simp [burnAccepted, hm], by simp [attempt_burn, hm]⟩
  | some m =>
    by_cases hg : (some m.turn == m.getInternalId c) = true
    · cases ha : m.attemptBurn d.tile with
      | none =>
        exact Or.inl ⟨by simp [burnAccepted, hm, ha],
          by simp [attempt_burn, hm, hg, ha]⟩
      | some m' =>
        exact Or.inr ⟨m, m', rfl, ha, by simp [burnAccepted, hm, hg, ha],
          by simp [attempt_burn, hm, hg, ha]⟩
    · rw [Bool.not_eq_true] at hg
      exact Or.inl ⟨by simp [burnAccepted, hm, hg],
        by simp [attempt_burn, hm, hg]⟩

/-- C1: a `match_start` request creates and begins a match if and only if
the number of players whose accepted flag equals `accepted` equals the
largest owner index appearing in the piece configuration plus one; when the
counts differ the request is rejected (no emission) and no match is added
to the match registry.  (`maxOwner` is the source's fold, which on a
nonempty configuration is the largest owner index appearing.) -/
theorem match_start_creates_iff_seat_count (st : ServerState) (nid : Nat) (s : Settings) :
    (acceptedCount s.players = maxOwner s.piece_config + 1 →
      ∃ mid g, (match_start st nid s).1.matchesMap = (mid, g) :: st.matchesMap ∧
        g.status = MatchStatus.active) ∧
    (acceptedCount s.players ≠ maxOwner s.piece_config + 1 →
      (match_start st nid s).1 = st ∧ (match_start st nid s).2.2 = []) := by
  have hlen := processPlayers_length s.players nid
  constructor
  · intro h
    exact ⟨(processPlayers s.players nid).2, startedGame nid s,
      by simp [match_start, startedGame, hlen, h], rfl⟩
  · intro h
    constructor <;> simp [match_start, hlen, h]

theorem match_start_creates_iff_seat_count_witness :
    (∃ mid g, (match_start stW 50 sOk).1.matchesMap = (mid, g) :: stW.matchesMap ∧
       g.status = MatchStatus.active) ∧
    (match_start stW 50 sBad).1 = stW ∧ (match_start stW 50 sBad).2.2 = [] :=
  ⟨(match_start_creates_iff_seat_count stW 50 sOk).1 (by decide),
   (match_start_creates_iff_seat_count stW 50 sBad).2 (by decide)⟩

/-- C2: a move or burn is forwarded to the match engine only when the
requesting client's internal seat equals the match's current turn seat: on
an existing match, a request from a client whose seat is not the turn seat
(for a move: with in-bounds source coordinates, where the handler's board
read succeeds) is rejected, leaving the whole server state — in particular
the Board — unchanged and emitting nothing. -/
theorem attempt_action_requires_turn_seat :
    (∀ st c d m tile, lookupId st.matchesMap d.match_id = some m →
      m.board.tileAt d.src = some tile →
      m.getInternalId c ≠ some m.turn →
      attempt_move st c d = some (st, [])) ∧
    (∀ st c d m, lookupId st.matchesMap d.match_id = some m →
      m.getInternalId c ≠ some m.turn →
      attempt_burn st c d = some (st, [])) := by
  constructor
  · intro st c d m tile hm ht hseat
    have hg : (some m.turn == m.getInternalId c) = false := by
      rw [beq_eq_false_iff_ne]
      intro he
      exact hseat he.symm
    simp [attempt_move, hm, ht, hg]
  · intro st c d m hm hseat
    have hg : (some m.turn == m.getInternalId c) = false := by
      rw [beq_eq_false_iff_ne]
      intro he
      exact hseat he.symm
    simp [attempt_burn, hm, hg]

theorem attempt_action_requires_turn_seat_witness :
    attempt_move stW 8 ⟨9, ⟨0, 0⟩, ⟨2, 0⟩⟩ = some (stW, []) ∧
    attempt_burn stW 8 ⟨9, ⟨1, 1⟩⟩ = some (stW, []) :=
  ⟨attempt_action_requires_turn_seat.1 stW 8 ⟨9, ⟨0, 0⟩, ⟨2, 0⟩⟩ mW
      (TileState.occupied 0) (by decide) (by decide) (by decide),
   attempt_action_requires_turn_seat.2 stW 8 ⟨9, ⟨1, 1⟩⟩ mW (by decide) (by decide)⟩

/-- C5: a move or burn request naming a match identifier that is not a key
of the live match registry is a non-fatal no-op: the handler returns with
the server state unchanged and emits nothing. -/
theorem unknown_match_noop :
    (∀ st c d, lookupId st.matchesMap d.match_id = none →
      attempt_move st c d = some (st, [])) ∧
    (∀ st c d, lookupId st.matchesMap d.match_id = none →
      attempt_burn st c d = some (st, [])) := by
  constructor
  · intro st c d hm
    simp [attempt_move, hm]
  · intro st c d hm
    simp [attempt_burn, hm]

theorem unknown_match_noop_witness :
    attempt_move stW 7 ⟨1, ⟨0, 0⟩, ⟨2, 0⟩⟩ = some (stW, []) ∧
    attempt_burn stW 7 ⟨1, ⟨0, 0⟩⟩ = some (stW, []) :=
  ⟨unknown_match_noop.1 stW 7 ⟨1, ⟨0, 0⟩, ⟨2, 0⟩⟩ (by decide),
   unknown_match_noop.2 stW 7 ⟨1, ⟨0, 0⟩⟩ (by decide)⟩

/-- C3: a `BoardSnapshot` broadcast is emitted exactly when a mutation is
accepted — once at match start, and after every accepted move or burn —
while every rejected move or burn produces no board mutation (the returned
state is the input state) and no `BoardSnapshot`. -/
theorem board_snapshot_exactly_on_accept :
    (∀ st nid s,
      (acceptedCount s.players = maxOwner s.piece_config + 1 →
        (match_start st nid s).2.2 =
          [Emit.broadcast (Msg.boardSnapshot (startedGame nid s).snapshot)]) ∧
      (acceptedCount s.players ≠ maxOwner s.piece_config + 1 →
        (match_start st nid s).1 = st ∧ (match_start st nid s).2.2 = [])) ∧
    (∀ st c d r, attempt_move st c d = some r →
      ((∃ sn, Emit.broadcast (Msg.boardSnapshot sn) ∈ r.2) ↔
        moveAccepted st c d = true) ∧
      (moveAccepted st c d = false → r = (st, []))) ∧
    (∀ st c d r, attempt_burn st c d = some r →
      ((∃ sn, Emit.broadcast (Msg.boardSnapshot sn) ∈ r.2) ↔
        burnAccepted st c d = true) ∧
      (burnAccepted st c d = false → r = (st, []))) := by
  refine ⟨?_, ?_, ?_⟩
  · intro st nid s
    have hlen := processPlayers_length s.players nid
    constructor
    · intro h
      simp [match_start, startedGame, hlen, h, Amazons.emitBoard]
    · intro h
      constructor <;> simp [match_start, hlen, h]
  · intro st c d r h
    rcases attempt_move_spec st c d with ⟨hacc, hres | hres⟩ | ⟨m, m', hm, ha, hacc, hres⟩
    · rw [h] at hres
      exact absurd hres (by simp)
    · rw [h] at hres
      obtain rfl : r = (st, []) := by simpa using hres
      refine ⟨⟨?_, ?_⟩, fun _ => rfl⟩
      · rintro ⟨sn, hsn⟩
        simp at hsn
      · intro hc
        rw [hacc] at hc
        cases hc
    · rw [h] at hres
      obtain rfl := Option.some.inj hres.symm
      refine ⟨⟨fun _ => hacc, fun _ => ⟨m'.snapshot, by simp⟩⟩, ?_⟩
      intro hc
      rw [hacc] at hc
      cases hc
  · intro st c d r h
    rcases attempt_burn_spec st c d with ⟨hacc, hres⟩ | ⟨m, m', hm, ha, hacc, hres⟩
    · rw [h] at hres
      obtain rfl : r = (st, []) := by simpa using hres
      refine ⟨⟨?_, ?_⟩, fun _ => rfl⟩
      · rintro ⟨sn, hsn⟩
        simp at hsn
      · intro hc
        rw [hacc] at hc
        cases hc
    · rw [h] at hres
      obtain rfl := Option.some.inj hres.symm
      refine ⟨⟨fun _ => hacc, fun _ => ⟨m'.snapshot, by simp⟩⟩, ?_⟩
      intro hc
      rw [hacc] at hc
      cases hc

theorem board_snapshot_exactly_on_accept_witness :
    ((∃ sn, Emit.broadcast (Msg.boardSnapshot sn) ∈ rA.2) ↔
      moveAccepted stW 7 dA = true) ∧
    (moveAccepted stW 7 dA = false → rA = (stW, [])) :=
  board_snapshot_exactly_on_accept.2.1 stW 7 dA rA (by decide)

/-- C4 counterexample: a concrete rejected `StartMatch` (one accepted
player, piece configuration declaring owners 0 and 1) leaves the state
unchanged but returns no failure reason of any kind — the handler's entire
output is the unchanged state, the unchanged identifier counter and an
empty emission list (`index.js` lines 263-265 are a bare `return`), so the
rejection is silent rather than carrying a typed reason. -/
theorem match_start_rejection_silent_cex :
    match_start stW 50 sBad = (stW, 50, []) := by decide

/-- C4 (amended): every rejected `AttemptMove`, `AttemptBurn` or
`StartMatch` request leaves all match state unchanged, but the rejection is
silent: the handlers return no failure reason and emit nothing. -/
theorem rejections_unchanged_and_silent :
    (∀ st nid s, acceptedCount s.players ≠ maxOwner s.piece_config + 1 →
      (match_start st nid s).1 = st ∧ (match_start st nid s).2.2 = []) ∧
    (∀ st c d r, attempt_move st c d = some r → moveAccepted st c d = false →
      r.1 = st ∧ r.2 = []) ∧
    (∀ st c d r, attempt_burn st c d = some r → burnAccepted st c d = false →
      r.1 = st ∧ r.2 = []) := by
  refine ⟨?_, ?_, ?_⟩
  · intro st nid s h
    have hlen := processPlayers_length s.players nid
    constructor <;> simp [match_start, hlen, h]
  · intro st c d r h hacc
    rcases attempt_move_spec st c d with ⟨_, hres | hres⟩ | ⟨m, m', hm, ha, hacc', hres⟩
    · rw [h] at hres
      exact absurd hres (by simp)
    · rw [h] at hres
      obtain rfl : r = (st, []) := by simpa using hres
      exact ⟨rfl, rfl⟩
    · rw [hacc'] at hacc
      cases hacc
  · intro st c d r h hacc
    rcases attempt_burn_spec st c d with ⟨_, hres⟩ | ⟨m, m', hm, ha, hacc', hres⟩
    · rw [h] at hres
      obtain rfl : r = (st, []) := by simpa using hres
      exact ⟨rfl, rfl⟩
    · rw [hacc'] at hacc
      cases hacc

theorem rejections_unchanged_and_silent_witness :
    (match_start stW 50 sBad).1 = stW ∧ (match_start stW 50 sBad).2.2 = [] :=
  rejections_unchanged_and_silent.1 stW 50 sBad (by decide)

/-- C6: the handler's board access at the request's `from` coordinates is
not total — with the source coordinates outside `[0, S)` on an existing 3×3
match, `board[data.from.x][data.from.y]` is `undefined` and the `.owner`
read throws, crashing the `attempt_move` handler (`none`) instead of
rejecting the request with a non-fatal `OutOfBounds` failure. -/
theorem attempt_move_oob_crash :
    attempt_move stW 7 ⟨9, ⟨5, 0⟩, ⟨2, 0⟩⟩ = none ∧
    attempt_move stW 7 ⟨9, ⟨0, -1⟩, ⟨2, 0⟩⟩ = none := by decide

/-- C7: an accepted move is answered to the acting client with
`move_success` carrying exactly the requested target coordinate, and an
accepted burn with `burn_success`; a rejected move or burn produces no
reply to the client at all. -/
theorem success_replies_exactly_on_accept :
    (∀ st c d r, attempt_move st c d = some r →
      (moveAccepted st c d = true →
        ∃ m' : Amazons, r.2 = [Emit.toClient c (Msg.moveSuccess d.dst),
                     Emit.broadcast (Msg.boardSnapshot m'.snapshot)]) ∧
      (moveAccepted st c d = false → ∀ msg, Emit.toClient c msg ∉ r.2)) ∧
    (∀ st c d r, attempt_burn st c d = some r →
      (burnAccepted st c d = true →
        ∃ m' : Amazons, r.2 = [Emit.toClient c Msg.burnSuccess,
                     Emit.broadcast (Msg.boardSnapshot m'.snapshot)]) ∧
      (burnAccepted st c d = false → ∀ msg, Emit.toClient c msg ∉ r.2)) := by
  constructor
  · intro st c d r h
    rcases attempt_move_spec st c d with ⟨hacc, hres | hres⟩ | ⟨m, m', hm, ha, hacc, hres⟩
    · rw [h] at hres
      exact absurd hres (by simp)
    · rw [h] at hres
      obtain rfl : r = (st, []) := by simpa using hres
      exact ⟨fun hc => absurd hc (by simp [hacc]), fun _ msg => by simp⟩
    · rw [h] at hres
      obtain rfl := Option.some.inj hres.symm
      exact ⟨fun _ => ⟨m', rfl⟩, fun hc => absurd hc (by simp [hacc])⟩
  · intro st c d r h
    rcases attempt_burn_spec st c d with ⟨hacc, hres⟩ | ⟨m, m', hm, ha, hacc, hres⟩
    · rw [h] at hres
      obtain rfl : r = (st, []) := by simpa using hres
      exact ⟨fun hc => absurd hc (by simp [hacc]), fun _ msg => by simp⟩
    · rw [h] at hres
      obtain rfl := Option.some.inj hres.symm
      exact ⟨fun _ => ⟨m', rfl⟩, fun hc => absurd hc (by simp [hacc])⟩

theorem success_replies_exactly_on_accept_witness :
    ((burnAccepted stA 7 dB = true →
      ∃ m' : Amazons, rB.2 = [Emit.toClient 7 Msg.burnSuccess,
                    Emit.broadcast (Msg.boardSnapshot m'.snapshot)]) ∧
     (burnAccepted stA 7 dB = false → ∀ msg, Emit.toClient 7 msg ∉ rB.2)) :=
  success_replies_exactly_on_accept.2 stA 7 dB rB (by decide)

theorem processPlayers_forall (ps : List PlayerSetting) (nid : Nat) :
    List.Forall₂ (fun (p q : PlayerSetting) =>
        p.type = q.type ∧ (q.type = "bot" → nid ≤ p.id) ∧ (q.type ≠ "bot" → p = q))
      (processPlayers ps nid).1 (ps.filter fun q => q.accepted == "accepted") := by
  induction ps generalizing nid with
  | nil => simp [processPlayers]
  | cons p ps ih =>
    by_cases h : p.accepted = "accepted"
    · have hc : (p.accepted == "accepted") = true := by simp [h]
      have hfil : ((p :: ps).filter fun q => q.accepted == "accepted") =
          p :: (ps.filter fun q => q.accepted == "accepted") := by
        simp [List.filter_cons, hc]
      by_cases hb : p.type = "bot"
      · have ihw : List.Forall₂ (fun (p q : PlayerSetting) =>
            p.type = q.type ∧ (q.type = "bot" → nid ≤ p.id) ∧ (q.type ≠ "bot" → p = q))
            (processPlayers ps (nid + 1)).1
            (ps.filter fun q => q.accepted == "accepted") :=
          (ih (nid + 1)).imp
            (fun a b hpq => ⟨hpq.1, fun hq => le_trans (Nat.le_succ nid) (hpq.2.1 hq), hpq.2.2⟩)
        have hpp : (processPlayers (p :: ps) nid).1 =
            { p with id := nid } :: (processPlayers ps (nid + 1)).1 := by
          simp [processPlayers, h, hb]
        rw [hpp, hfil]
        exact List.Forall₂.cons ⟨rfl, fun _ => Nat.le_refl _, fun hq => absurd hb hq⟩ ihw
      · have hpp : (processPlayers (p :: ps) nid).1 =
            p :: (processPlayers ps nid).1 := by
          simp [processPlayers, h, hb]
        rw [hpp, hfil]
        exact List.Forall₂.cons ⟨rfl, fun hq => absurd hq hb, fun _ => rfl⟩ (ih nid)
    · have hc : (p.accepted == "accepted") = false := by simp [h]
      have hfil : ((p :: ps).filter fun q => q.accepted == "accepted") =
          ps.filter fun q => q.accepted == "accepted" := by
        simp [List.filter_cons, hc]
      have hpp : (processPlayers (p :: ps) nid).1 = (processPlayers ps nid).1 := by
        simp [processPlayers, h]
      rw [hpp, hfil]
      exact ih nid

/-- C8: when a `match_start` request creates a match, every accepted seat of
bot type is registered under a freshly generated identity — distinct from
every connected client's identity (all of which were issued before the
request, i.e. are below the generator counter) — while every accepted human
seat is registered under exactly the external identity supplied in the
request. -/
theorem bot_seats_get_fresh_identity (st : ServerState) (nid : Nat) (s : Settings)
    (mid : Nat) (g : Amazons)
    (hfresh : ∀ q ∈ st.clients, q.1 < nid)
    (h : (match_start st nid s).1.matchesMap = (mid, g) :: st.matchesMap) :
    List.Forall₂ (fun (pid : Nat) (q : PlayerSetting) =>
        (q.type = "bot" → ∀ r ∈ st.clients, pid ≠ r.1) ∧
        (q.type ≠ "bot" → pid = q.id))
      g.players (s.players.filter fun q => q.accepted == "accepted") := by
  by_cases hcond :
      (processPlayers s.players nid).1.length = maxOwner s.piece_config + 1
  · have hms : (match_start st nid s).1.matchesMap =
        ((processPlayers s.players nid).2, startedGame nid s) :: st.matchesMap := by
      simp [match_start, startedGame, hcond]
    rw [hms] at h
    have hpair := (List.cons.inj h).1
    have hg : g = startedGame nid s := ((Prod.mk.inj hpair).2).symm
    have hplayers : g.players = (processPlayers s.players nid).1.map (fun p => p.id) := by
      rw [hg]
      rfl
    rw [hplayers, List.forall₂_map_left_iff]
    refine (processPlayers_forall s.players nid).imp ?_
    intro a b hab
    refine ⟨?_, ?_⟩
    · intro hqb r hr
      have hle : nid ≤ a.id := hab.2.1 hqb
      have hlt : r.1 < nid := hfresh r hr
      omega
    · intro hqb
      rw [hab.2.2 hqb]
  · have hst : (match_start st nid s).1 = st := by
      simp [match_start, hcond]
    rw [hst] at h
    have hlen := congrArg List.length h
    simp at hlen

theorem bot_seats_get_fresh_identity_witness :
    List.Forall₂ (fun (pid : Nat) (q : PlayerSetting) =>
        (q.type = "bot" → ∀ r ∈ stW.clients, pid ≠ r.1) ∧
        (q.type ≠ "bot" → pid = q.id))
      (startedGame 50 sOk).players (sOk.players.filter fun q => q.accepted == "accepted") :=
  bot_seats_get_fresh_identity stW 50 sOk 51 (startedGame 50 sOk)
    (by decide) (by decide)

theorem lookupId_map_update (l : List (Nat × Client)) (cid : Nat) (u : String) :
    lookupId (l.map fun p =>
        if p.1 = cid then (p.1, { p.2 with username := some u }) else p) cid =
      (lookupId l cid).map fun c => { c with username := some u } := by
  induction l with
  | nil => rfl
  | cons p rest ih =>
    simp only [List.map_cons]
    by_cases h : p.1 = cid
    · rw [if_pos h]
      simp [lookupId, h]
    · rw [if_neg h]
      simp [lookupId, h, ih]

/-- C9: a `set_username` request is accepted — the client record updated to
the new username, `username_set` sent back and the live `users_list`
broadcast to everyone — if and only if the username's length is between 3
and 20 characters inclusive; otherwise the client receives only an
`error_message` and no registration or broadcast occurs (the state is
unchanged). -/
theorem set_username_length_gate (st : ServerState) (cid : Nat) (u : String)
    (c : Client) (hc : lookupId st.clients cid = some c) :
    (3 ≤ u.length ∧ u.length ≤ 20 →
      set_username st cid u =
        ({ st with clients := st.clients.map fun p =>
             if p.1 = cid then (p.1, { p.2 with username := some u }) else p },
         [Emit.toClient cid (Msg.usernameSet u),
          Emit.broadcast (Msg.usersList (usersInfo (st.clients.map fun p =>
            if p.1 = cid then (p.1, { p.2 with username := some u }) else p)))]) ∧
      lookupId (set_username st cid u).1.clients cid =
        some { c with username := some u }) ∧
    (¬(3 ≤ u.length ∧ u.length ≤ 20) →
      set_username st cid u =
        (st, [Emit.toClient cid (Msg.errorMessage usernameError)])) := by
  constructor
  · intro h
    refine ⟨by simp [set_username, h], ?_⟩
    simp [set_username, h, lookupId_map_update, hc]
  · intro h
    simp [set_username, h]

theorem set_username_length_gate_witness :
    lookupId (set_username stW 8 "bob").1.clients 8 = some ⟨8, some "bob"⟩ ∧
    set_username stW 8 "ab" =
      (stW, [Emit.toClient 8 (Msg.errorMessage usernameError)]) :=
  ⟨((set_username_length_gate stW 8 "bob" ⟨8, none⟩ (by decide)).1 (by decide)).2,
   (set_username_length_gate stW 8 "ab" ⟨8, none⟩ (by decide)).2 (by decide)⟩

/-- C10: match invites are one-shot: on a pending invite whose sender is
still connected, `match_accept` and `match_decline` each send exactly one
`invite_response` to the sender and delete the invite from the pending
registry (a later lookup finds nothing); when the sender has disconnected
the handler returns with the state unchanged and the invite still
pending. -/
theorem invite_one_shot (st : ServerState) (iid : Nat) (inv : Invite)
    (hi : lookupId st.matchInvites iid = some inv) :
    (∀ c, lookupId st.clients inv.fromId = some c →
      match_accept st iid =
        some ({ st with matchInvites := eraseKey st.matchInvites iid },
              [Emit.toClient inv.fromId (Msg.inviteResponse inv.toId iid "accepted")]) ∧
      match_decline st iid =
        some ({ st with matchInvites := eraseKey st.matchInvites iid },
              [Emit.toClient inv.fromId (Msg.inviteResponse inv.toId iid "declined")]) ∧
      lookupId (eraseKey st.matchInvites iid) iid = none) ∧
    (lookupId st.clients inv.fromId = none →
      match_accept st iid = some (st, []) ∧
      match_decline st iid = some (st, []) ∧
      lookupId st.matchInvites iid = some inv) := by
  constructor
  · intro c hcl
    exact ⟨by simp [match_accept, hi, hcl], by simp [match_decline, hi, hcl],
      lookupId_eraseKey_self _ _⟩
  · intro hcl
    exact ⟨by simp [match_accept, hi, hcl], by simp [match_decline, hi, hcl], hi⟩

theorem invite_one_shot_witness :
    match_accept stW 40 =
      some ({ stW with matchInvites := eraseKey stW.matchInvites 40 },
            [Emit.toClient 7 (Msg.inviteResponse 8 40 "accepted")]) ∧
    match_accept stW2 40 = some (stW2, []) ∧
    match_decline stW2 40 = some (stW2, []) :=
  ⟨((invite_one_shot stW 40 ⟨7, 8⟩ (by decide)).1 ⟨7, some "alice"⟩ (by decide)).1,
   ((invite_one_shot stW2 40 ⟨7, 8⟩ (by decide)).2 (by decide)).1,
   ((invite_one_shot stW2 40 ⟨7, 8⟩ (by decide)).2 (by decide)).2.1⟩

/-- The source's `correct_players` fold (`maxOwner`) is exactly the largest
owner index appearing in a nonempty piece configuration: it bounds every
owner and is attained by some piece. -/
theorem maxOwner_is_largest_owner (pieces : List Piece) :
    (∀ p ∈ pieces, p.owner ≤ maxOwner pieces) ∧
    (pieces ≠ [] → ∃ p ∈ pieces, p.owner = maxOwner pieces) := by
  have key : ∀ (l : List Piece) (acc : Nat),
      acc ≤ l.foldl (fun a q => if q.owner > a then q.owner else a) acc ∧
      (∀ p ∈ l, p.owner ≤ l.foldl (fun a q => if q.owner > a then q.owner else a) acc) ∧
      (l.foldl (fun a q => if q.owner > a then q.owner else a) acc = acc ∨
        ∃ p ∈ l, l.foldl (fun a q => if q.owner > a then q.owner else a) acc = p.owner) := by
    intro l
    induction l with
    | nil => exact fun acc => ⟨le_refl _, by simp, Or.inl rfl⟩
    | cons p l ih =>
      intro acc
      obtain ⟨h1, h2, h3⟩ := ih (if p.owner > acc then p.owner else acc)
      refine ⟨le_trans (by split <;> omega) h1, ?_, ?_⟩
      · intro q hq
        rcases List.mem_cons.mp hq with rfl | hq
        · exact le_trans (by split <;> omega) h1
        · exact h2 q hq
      · rcases h3 with h3 | ⟨q, hq, he⟩
        · by_cases hc : p.owner > acc
          · refine Or.inr ⟨p, List.mem_cons_self p l, ?_⟩
            simpa [List.foldl_cons, hc] using h3
          · refine Or.inl ?_
            simpa [List.foldl_cons, hc] using h3
        · exact Or.inr ⟨q, List.mem_cons_of_mem p hq, he⟩
  obtain ⟨-, h2, h3⟩ := key pieces 0
  refine ⟨h2, ?_⟩
  intro hne
  rcases h3 with h3 | h3
  · match pieces, hne with
    | p :: l, _ =>
      refine ⟨p, List.mem_cons_self p l, ?_⟩
      have := h2 p (List.mem_cons_self p l)
      rw [maxOwner] at *
      omega
  · obtain ⟨p, hp, he⟩ := h3
    exact ⟨p, hp, by rw [maxOwner]; exact he.symm⟩
